import Mathlib

set_option maxHeartbeats 1000000

/-!
Verification of the sahar-backgammon repository.

Part 1 embeds the UI widget logic of `src/graphics/elements.py`
(button click handling, slider value clamping, timer expiry).
Part 2 embeds the backgammon rules engine and AI search.  The engine
modules (`backgammon/backgammon.py`, `backgammon/backgammon_ai.py`,
`models/*`) are not part of the provided sources — only their callers
are — so those definitions are modelled from the specification text and
are marked as such in their doc comments.

Machine integers and Python floats are represented by `Int`/`Nat`/`ℚ`;
the operations the verified properties exercise (comparison, min/max,
addition, subtraction) are exact on these carriers.
-/

namespace Elements

/-- pygame event-type constant `pygame.MOUSEBUTTONDOWN`. -/
def MOUSEBUTTONDOWN : Nat := 1025

/-- pygame event-type constant `pygame.MOUSEBUTTONUP`. -/
def MOUSEBUTTONUP : Nat := 1026

/-- pygame event-type constant `pygame.MOUSEMOTION`. -/
def MOUSEMOTION : Nat := 1024

/-- pygame event-type constant `pygame.MOUSEWHEEL`. -/
def MOUSEWHEEL : Nat := 1027

/-- A pygame event as consumed by `ButtonElement.click`: its `type`
field and its `button` field (`button` is only inspected when `type`
is `MOUSEBUTTONDOWN`, mirroring the short-circuit in the source). -/
structure Event where
  etype : Nat
  button : Nat
deriving DecidableEq, Repr

/-- A pygame `Rect` given by its top-left corner and size. -/
structure Rect where
  left : Int
  top : Int
  width : Int
  height : Int
deriving DecidableEq, Repr

/-- `pygame.Rect.collidepoint`: a point is inside the rectangle when it
lies within it, with the left/top edges included and the right/bottom
edges excluded. -/
def Rect.collidepoint (r : Rect) (pos : Int × Int) : Bool :=
  decide (r.left ≤ pos.1) && decide (pos.1 < r.left + r.width) &&
    decide (r.top ≤ pos.2) && decide (pos.2 < r.top + r.height)

/-- The state of a `ButtonElement` relevant to `click`: the `disabled`
flag, the bounding `rect`, and whether a `sound` is configured. -/
structure ButtonElement where
  disabled : Bool
  rect : Rect
  hasSound : Bool
deriving DecidableEq, Repr

/-- `Element.is_input_recieved` (elements.py line 39): the element is not
disabled and the mouse position collides with its rect.  The mouse
position, read from `pygame.mouse.get_pos()` in the source, is passed
explicitly. -/
def ButtonElement.is_input_recieved (b : ButtonElement) (mousePos : Int × Int) : Bool :=
  !b.disabled && b.rect.collidepoint mousePos

/-- Observable outcome of one `ButtonElement.click` call: the returned
boolean, how many times the sound was played, and how many times the
`on_click` callback was invoked. -/
structure ClickResult where
  returned : Bool
  soundPlays : Nat
  onClickCalls : Nat
deriving DecidableEq, Repr

/-- `ButtonElement.click` (elements.py lines 86-99): returns `False`
doing nothing unless some event is a left mouse-button-down and input is
received; otherwise plays the sound if one is set, invokes `on_click`
once and returns `True`. -/
def ButtonElement.click (b : ButtonElement) (events : List Event)
    (mousePos : Int × Int) : ClickResult :=
  if !(events.any fun e => e.etype == MOUSEBUTTONDOWN && e.button == 1)
      || !(b.is_input_recieved mousePos) then
    ⟨false, 0, 0⟩
  else
    ⟨true, if b.hasSound then 1 else 0, 1⟩

/-- The state of a `SliderElement` relevant to its `value` setter:
bounds `min`/`max`, the `step`, the stored `_value` and the `id`.
Python floats are modelled as rationals. -/
structure SliderElement where
  min : ℚ
  max : ℚ
  step : ℚ
  value : ℚ
  id : String
deriving DecidableEq, Repr

/-- Python's built-in `round` (banker's rounding, half to even). -/
def pythonRound (q : ℚ) : Int :=
  let f := ⌊q⌋
  let r := q - (f : ℚ)
  if r < 1/2 then f
  else if 1/2 < r then f + 1
  else if Even f then f else f + 1

/-- `SliderElement.value` setter (elements.py lines 444-454): clamps the
new value into `[min, max]`, rounds to the step grid when `step` is
truthy (nonzero), invokes `on_value_change(new_value, id)` once, and
stores the value.  The callback invocations are returned as a list of
`(value, id)` argument pairs. -/
def SliderElement.setValue (s : SliderElement) (v : ℚ) :
    SliderElement × List (ℚ × String) :=
  let v1 := if v < s.min then Max.max v s.min else Min.min v s.max
  let v2 := if s.step ≠ 0 then (pythonRound (v1 / s.step) : ℚ) * s.step else v1
  ({ s with value := v2 }, [(v2, s.id)])

/-- The state of a `TimerElement` relevant to `update`: the remaining
`time`, the `current_time` of the last update, the `disabled` flag, the
`threshold` and whether a threshold sound is configured. -/
structure TimerElement where
  time : ℚ
  current_time : ℚ
  disabled : Bool
  threshold : ℚ
  hasThresholdSound : Bool
deriving DecidableEq, Repr

/-- Observable outcome of one `TimerElement.update` call: the new timer
state, how many times `on_done` was invoked, and how many times the
threshold sound was played. -/
structure TimerUpdateResult where
  state : TimerElement
  onDoneCalls : Nat
  thresholdSoundPlays : Nat
deriving DecidableEq, Repr

/-- `TimerElement.update` (elements.py lines 645-664): a no-op while
disabled; otherwise subtracts the elapsed wall-clock time from the
timer, plays the threshold sound on a downward threshold crossing, and
when the timer became negative clamps it to 0, stops the timer and
invokes `on_done`.  The current wall-clock time, read from
`time.time()` in the source, is passed explicitly as `now`. -/
def TimerElement.update (t : TimerElement) (now : ℚ) : TimerUpdateResult :=
  if t.disabled then ⟨t, 0, 0⟩
  else
    let last := t.time
    let newTimer := t.time - (now - t.current_time)
    let sp : Nat :=
      if t.threshold < last ∧ newTimer < t.threshold ∧ t.hasThresholdSound = true
      then 1 else 0
    if newTimer < 0 then
      ⟨{ t with time := 0, current_time := now, disabled := true }, 1, sp⟩
    else
      ⟨{ t with time := newTimer, current_time := now }, 0, sp⟩

end Elements

namespace Backgammon

/-- Modelled from the spec: the `Player` enum of `models/player.py`
(not under src/), §3: "enum {player1, player2}, the two sides". -/
inductive Player where
  | player1
  | player2
deriving DecidableEq, Repr

/-- Modelled from the spec: "opponent lookup is a pure function of the
enum" (§3). -/
def Player.opponent : Player → Player
  | .player1 => .player2
  | .player2 => .player1

/-- Modelled from the spec: a `Point` of the Board Model (§3): an
optional owner and a checker count ≥ 0. -/
structure Point where
  owner : Option Player
  count : Nat
deriving DecidableEq, Repr

instance : Inhabited Point := ⟨⟨none, 0⟩⟩

/-- Modelled from the spec: the `Board` of `backgammon/backgammon.py`
(not under src/), §3: an ordered sequence of 24 Points, a bar count per
player, and a home count per player. -/
structure Board where
  points : List Point
  bar1 : Nat
  bar2 : Nat
  home1 : Nat
  home2 : Nat
deriving DecidableEq, Repr

/-- The bar count of a player. -/
def Board.bar (b : Board) : Player → Nat
  | .player1 => b.bar1
  | .player2 => b.bar2

/-- The home (borne-off) count of a player. -/
def Board.home (b : Board) : Player → Nat
  | .player1 => b.home1
  | .player2 => b.home2

/-- Add one captured checker to a player's bar. -/
def Board.addBar (b : Board) : Player → Board
  | .player1 => { b with bar1 := b.bar1 + 1 }
  | .player2 => { b with bar2 := b.bar2 + 1 }

/-- Remove one checker from a player's bar (guarded by the callers). -/
def Board.subBar (b : Board) : Player → Board
  | .player1 => { b with bar1 := b.bar1 - 1 }
  | .player2 => { b with bar2 := b.bar2 - 1 }

/-- Add one borne-off checker to a player's home. -/
def Board.addHome (b : Board) : Player → Board
  | .player1 => { b with home1 := b.home1 + 1 }
  | .player2 => { b with home2 := b.home2 + 1 }

/-- Modelled from the spec: the `MoveType` enum of `models/move.py`
(not under src/), §3: `normal_move`, `bear_off`, `leave_bar`. -/
inductive MoveType where
  | normal_move
  | bear_off
  | leave_bar
deriving DecidableEq, Repr

/-- Modelled from the spec: the `Move` of `models/move.py` (not under
src/), §3: `{start, end, kind}` where `start` is a point index or the
bar sentinel and `end` is a point index or the home sentinel.  The
source field `end` is a Lean keyword, so it is called `endp` here; the
sentinel value for both bar and home is 24. -/
structure Move where
  move_type : MoveType
  start : Nat
  endp : Nat
deriving DecidableEq, Repr

/-- Checker count a player owns on point `i` (0 when unowned or out of
range). -/
def ownedCountAt (b : Board) (p : Player) (i : Nat) : Nat :=
  let pt := b.points.getD i default
  if pt.owner = some p then pt.count else 0

/-- Modelled from the spec: the fixed direction of travel (§3): player1
moves 0→23, player2 moves 23→0, so the home quadrants are points 18-23
and 0-5 respectively. -/
def home_quadrant : Player → List Nat
  | .player1 => [18, 19, 20, 21, 22, 23]
  | .player2 => [0, 1, 2, 3, 4, 5]

/-- Modelled from the spec: `checkers_in_home_quadrant(player)` (§4.1),
the count used to gate bearing off against 15.  Checkers already borne
off are included in the count, as the gate must remain satisfied while
successive checkers are removed from the quadrant. -/
def checkers_in_home_quadrant (b : Board) (p : Player) : Nat :=
  ((home_quadrant p).map (ownedCountAt b p)).sum + b.home p

/-- A destination point is blocked for `p` when it holds ≥ 2 opposing
checkers (§4.2). -/
def blocked (b : Board) (p : Player) (i : Nat) : Bool :=
  let pt := b.points.getD i default
  decide (pt.owner = some p.opponent) && decide (2 ≤ pt.count)

/-- Destination reached from point `i` by die `d` in the mover's
direction of travel. -/
def destPoint (p : Player) (i d : Nat) : Nat :=
  match p with
  | .player1 => i + d
  | .player2 => i - d

/-- Whether the destination at `d` steps from `i` is off the board in
the bear-off direction (§4.2). -/
def offBoard (p : Player) (i d : Nat) : Bool :=
  match p with
  | .player1 => decide (24 ≤ i + d)
  | .player2 => decide (i < d)

/-- Modelled from the spec: the entry point from the bar reachable by
die `d` (§4.2 and the §8 blocked-entry scenario, where player1 entering
with die 5 targets point 5). -/
def entry_point (p : Player) (d : Nat) : Nat :=
  match p with
  | .player1 => d
  | .player2 => 23 - d

/-- Modelled from the spec: `legal_moves(board, player, die_value)`
(§4.2).  With checkers on the bar only the (at most one) unblocked
`leave_bar` entry is legal; otherwise every owned, occupied point
yields a `normal_move` to an unblocked destination, or a `bear_off`
when the destination is off the board and the home-quadrant gate counts
all 15 checkers. -/
def legal_moves (b : Board) (p : Player) (d : Nat) : List Move :=
  if 0 < b.bar p then
    let e := entry_point p d
    if blocked b p e then [] else [⟨.leave_bar, 24, e⟩]
  else
    (List.range 24).filterMap fun i =>
      let pt := b.points.getD i default
      if pt.owner = some p ∧ 0 < pt.count then
        if offBoard p i d then
          if checkers_in_home_quadrant b p = 15 then some ⟨.bear_off, i, 24⟩
          else none
        else if blocked b p (destPoint p i d) then none
        else some ⟨.normal_move, i, destPoint p i d⟩
      else none

/-- The source point after one checker leaves it: count decremented,
ownership dropped when it empties. -/
def srcAfter (p : Player) (src : Point) : Point :=
  ⟨if src.count - 1 = 0 then none else some p, src.count - 1⟩

/-- The destination point after the mover's checker lands on it: one
more of the mover's checkers when already owned, otherwise a single
checker of the mover (covering empty points and captured blots). -/
def dstAfter (p : Player) (dst : Point) : Point :=
  if dst.owner = some p then ⟨some p, dst.count + 1⟩ else ⟨some p, 1⟩

/-- Landing on exactly one opposing checker is a hit (§4.1). -/
def isCapture (p : Player) (dst : Point) : Prop :=
  dst.owner = some p.opponent ∧ dst.count = 1

instance (p : Player) (dst : Point) : Decidable (isCapture p dst) := by
  unfold isCapture; infer_instance

/-- Modelled from the spec: `apply_checker_move(from, to, player)`
(§4.1): moves one checker from `f` to `t`, capturing a lone opposing
checker to the opponent's bar; fails on a blocked destination, on a
source not occupied by the mover, or on out-of-range indices (§6:
inputs are validated point indices 0-23). -/
def apply_checker_move (b : Board) (f t : Nat) (p : Player) : Option Board :=
  if f < 24 ∧ t < 24 ∧ f ≠ t then
    let src := b.points.getD f default
    if src.owner = some p ∧ 0 < src.count then
      let dst := b.points.getD t default
      if dst.owner = some p.opponent ∧ 2 ≤ dst.count then none
      else
        let b1 := { b with
          points := (b.points.set f (srcAfter p src)).set t (dstAfter p dst) }
        some (if isCapture p dst then b1.addBar p.opponent else b1)
    else none
  else none

/-- Modelled from the spec: bearing a checker off from point `f` into
home (§3, §4.3): the source loses one checker and the mover's home
count grows by one. -/
def apply_bear_off (b : Board) (f : Nat) (p : Player) : Option Board :=
  if f < 24 then
    let src := b.points.getD f default
    if src.owner = some p ∧ 0 < src.count then
      some (Board.addHome
        { b with points := b.points.set f (srcAfter p src) } p)
    else none
  else none

/-- Modelled from the spec: entering from the bar at point `e` (§3,
§4.2): the mover's bar shrinks by one and the entry point is occupied,
capturing a lone opposing checker; fails on a blocked entry or an empty
bar. -/
def apply_leave_bar (b : Board) (e : Nat) (p : Player) : Option Board :=
  if e < 24 ∧ 0 < b.bar p then
    let dst := b.points.getD e default
    if dst.owner = some p.opponent ∧ 2 ≤ dst.count then none
    else
      let b1 := { b.subBar p with points := b.points.set e (dstAfter p dst) }
      some (if isCapture p dst then b1.addBar p.opponent else b1)
  else none

/-- Dispatch a move to the §4.1 board mutator matching its kind. -/
def applyMove (b : Board) (p : Player) (m : Move) : Option Board :=
  match m.move_type with
  | .normal_move => apply_checker_move b m.start m.endp p
  | .bear_off => apply_bear_off b m.start p
  | .leave_bar => apply_leave_bar b m.endp p

/-- Modelled from the spec: a `TurnSnapshot` (§3): a full copy of
{Board, dice remaining, current player} taken before each move. -/
structure TurnSnapshot where
  board : Board
  dice : List Nat
  player : Player
deriving DecidableEq, Repr

/-- Modelled from the spec: the `GameSession` aggregate (§3): the live
Board, the expanded remaining die values, the current player, and the
per-turn undo stack. -/
structure GameSession where
  board : Board
  diceRemaining : List Nat
  currentPlayer : Player
  history : List TurnSnapshot
deriving DecidableEq, Repr

/-- Modelled from the spec: the recoverable error taxonomy (§7). -/
inductive GameError where
  | illegalMove
  | emptyHistory
  | prematureQuery
deriving DecidableEq, Repr

/-- Terminal check (§4.3): some player's home count reached 15. -/
def GameSession.is_game_over (s : GameSession) : Bool :=
  decide (s.board.home1 = 15) || decide (s.board.home2 = 15)

/-- Modelled from the spec: `execute(move)` (§4.3): fails once the game
is terminal; validates the move is a member of `legal_moves` for some
remaining die value; on success pushes a TurnSnapshot, mutates the
Board via the §4.1 mutators, and consumes the matching die value.  On
failure the session is returned unchanged with the error. -/
def execute (s : GameSession) (m : Move) : GameSession × Option GameError :=
  if s.is_game_over then (s, some .prematureQuery)
  else
    match s.diceRemaining.find?
        (fun d => decide (m ∈ legal_moves s.board s.currentPlayer d)) with
    | none => (s, some .illegalMove)
    | some d =>
      match applyMove s.board s.currentPlayer m with
      | none => (s, some .illegalMove)
      | some b' =>
        ({ board := b',
           diceRemaining := s.diceRemaining.erase d,
           currentPlayer := s.currentPlayer,
           history := ⟨s.board, s.diceRemaining, s.currentPlayer⟩ :: s.history },
         none)

/-- Modelled from the spec: `undo()` (§4.3): pops the most recent
TurnSnapshot and restores Board and dice-remaining to that point; fails
when the per-turn stack is empty.  On failure the session is returned
unchanged with the error. -/
def undo (s : GameSession) : GameSession × Option GameError :=
  match s.history with
  | [] => (s, some .emptyHistory)
  | snap :: rest =>
    ({ s with board := snap.board, diceRemaining := snap.dice, history := rest },
     none)

/-- Modelled from the spec: the Dice Roller's doubles expansion (§4.4):
a doubles roll yields the value four times, any other roll the two
values; this is the only place doubles are expanded.  The two uniform
draws are passed as parameters. -/
def expand_roll (d1 d2 : Nat) : List Nat :=
  if d1 = d2 then List.replicate 4 d1 else [d1, d2]

/-- Turn completion (§4.3): no die value remains, or no legal move
exists for any remaining value. -/
def GameSession.is_turn_done (s : GameSession) : Bool :=
  s.diceRemaining.all fun d => (legal_moves s.board s.currentPlayer d).isEmpty

/-- Modelled from the spec: `switch_turn()` (§4.3): clears the undo
stack, installs the new (expanded) roll, and hands the turn to the
opponent; a no-op while the current turn is not done and the game is
not terminal. -/
def switch_turn (s : GameSession) (d1 d2 : Nat) : GameSession :=
  if s.is_turn_done || s.is_game_over then
    { board := s.board
      diceRemaining := expand_roll d1 d2
      currentPlayer := s.currentPlayer.opponent
      history := [] }
  else s

/-- Modelled from the spec: the standard backgammon starting layout, in
the §3 orientation (player1 travels 0→23): each player has 15 checkers
placed 2-5-3-5. -/
def initialBoard : Board where
  points :=
    [⟨some .player1, 2⟩,
     ⟨none, 0⟩, ⟨none, 0⟩, ⟨none, 0⟩, ⟨none, 0⟩,
     ⟨some .player2, 5⟩,
     ⟨none, 0⟩,
     ⟨some .player2, 3⟩,
     ⟨none, 0⟩, ⟨none, 0⟩, ⟨none, 0⟩,
     ⟨some .player1, 5⟩,
     ⟨some .player2, 5⟩,
     ⟨none, 0⟩, ⟨none, 0⟩, ⟨none, 0⟩,
     ⟨some .player1, 3⟩,
     ⟨none, 0⟩,
     ⟨some .player1, 5⟩,
     ⟨none, 0⟩, ⟨none, 0⟩, ⟨none, 0⟩, ⟨none, 0⟩,
     ⟨some .player2, 2⟩]
  bar1 := 0
  bar2 := 0
  home1 := 0
  home2 := 0

/-- Modelled from the spec: a fresh `GameSession` (§3 lifecycle),
player1 to move with the expanded first roll. -/
def initSession (d1 d2 : Nat) : GameSession :=
  ⟨initialBoard, expand_roll d1 d2, .player1, []⟩

/-- The states of the engine reachable from a fresh session through the
engine's operations: successful move execution, successful undo, and
turn switching (§3 lifecycle). -/
inductive Reachable : GameSession → Prop where
  | init (d1 d2 : Nat) : Reachable (initSession d1 d2)
  | exec {s s' : GameSession} {m : Move} :
      Reachable s → execute s m = (s', none) → Reachable s'
  | undoStep {s s' : GameSession} :
      Reachable s → undo s = (s', none) → Reachable s'
  | switch {s : GameSession} (d1 d2 : Nat) :
      Reachable s → Reachable (switch_turn s d1 d2)

/-- Modelled from the spec: distance to home of a checker on point `i`
(Glossary: remaining distance in the mover's direction of travel). -/
def distance_to_home (p : Player) (i : Nat) : Nat :=
  match p with
  | .player1 => 24 - i
  | .player2 => i + 1

/-- Modelled from the spec: `pip_count(player)` (§4.1): the sum of
distance-to-home × checker count over all of the player's checkers;
checkers on the bar must travel the whole track plus one entry step. -/
def pip_count (b : Board) (p : Player) : Nat :=
  ((List.range 24).map fun i => distance_to_home p i * ownedCountAt b p i).sum
    + 25 * b.bar p

/-- Modelled from the spec: number of the player's blots (Glossary:
points occupied by exactly one of their checkers). -/
def blot_count (b : Board) (p : Player) : Nat :=
  ((List.range 24).map fun i =>
    let pt := b.points.getD i default
    if pt.owner = some p ∧ pt.count = 1 then 1 else 0).sum

/-- Modelled from the spec: home-board strength (§4.5): home-quadrant
points held with ≥ 2 checkers. -/
def home_strength (b : Board) (p : Player) : Nat :=
  ((home_quadrant p).map fun i =>
    let pt := b.points.getD i default
    if pt.owner = some p ∧ 2 ≤ pt.count then 1 else 0).sum

/-- Modelled from the spec: the AI's static evaluation (§4.5): a
weighted combination of own pip count (lower is better), opponent pip
count (higher is better), own blots (penalized) and own home-board
strength (rewarded); unit weights are chosen as the deterministic
representative. -/
def score (b : Board) (p : Player) : Int :=
  (pip_count b p.opponent : Int) - (pip_count b p : Int)
    - (blot_count b p : Int) + (home_strength b p : Int)

/-- Executing one move during the search: a legal move always applies,
so a failing application falls back to the unchanged board. -/
def applyMoveD (b : Board) (p : Player) (m : Move) : Board :=
  (applyMove b p m).getD b

/-- Realize a whole candidate sequence on a board copy (§4.5). -/
def applySeq (b : Board) (p : Player) (s : List Move) : Board :=
  s.foldl (fun bb m => applyMoveD bb p m) b

/-- Modelled from the spec: the sequence enumeration of §4.5: every
sequence of legal moves obtainable by picking any remaining die value,
any move legal for it, re-querying the generator on the updated board,
and stopping at any time.  The empty sequence is always included (§4.5
failure mode). -/
def seqs (b : Board) (p : Player) (dice : List Nat) : List (List Move) :=
  [] :: (dice.dedup.attach.flatMap fun dd =>
    (legal_moves b p dd.1).flatMap fun m =>
      (seqs (applyMoveD b p m) p (dice.erase dd.1)).map fun tail => m :: tail)
termination_by dice.length
decreasing_by
  have hmem : dd.1 ∈ dice := List.mem_dedup.mp dd.2
  have h1 : (dice.erase dd.1).length = dice.length - 1 :=
    List.length_erase_of_mem hmem
  have h2 : 0 < dice.length := List.length_pos_of_mem hmem
  omega

/-- A legal full-or-partial turn sequence (§3 MoveSequence, §4.5): each
move is legal for some still-unused die value on the board produced by
the moves before it. -/
inductive LegalSeq : Board → Player → List Nat → List Move → Prop where
  | nil (b : Board) (p : Player) (dice : List Nat) : LegalSeq b p dice []
  | cons {b : Board} {p : Player} {dice : List Nat} {d : Nat} {m : Move}
      {rest : List Move} :
      d ∈ dice → m ∈ legal_moves b p d →
      LegalSeq (applyMoveD b p m) p (dice.erase d) rest →
      LegalSeq b p dice (m :: rest)

/-- Modelled from the spec: the §4.5 dominance order between two
candidate sequences rooted at `base`: a longer sequence always
dominates a shorter one; among equal lengths the better static score
wins (ties resolved to the first argument, the deterministic
first-encountered rule of §9). -/
def better (p : Player) (base : Board) (s t : List Move) : List Move :=
  if t.length < s.length then s
  else if s.length < t.length then t
  else if score (applySeq base p t) p ≤ score (applySeq base p s) p then s
  else t

/-- Modelled from the spec: `best_sequence(board, player, dice_values)`
(§4.5): the dominant sequence among all enumerated candidates, the
empty sequence when no move is legal. -/
def best_sequence (b : Board) (p : Player) (dice : List Nat) : List Move :=
  (seqs b p dice).foldr (better p b) []

/-- The state threaded through the AI search: the live session, which
the search may only read, and the scratch board the candidate
sequences are realized on (§5). -/
structure SearchState where
  live : GameSession
  scratch : Board

/-- Modelled from the spec: evaluation of the candidate sequences
(§4.5): each candidate is realized on the scratch copy of the live
board and compared under the dominance order; the live session is
never written. -/
def evalBest (p : Player) (base : Board) :
    SearchState → List (List Move) → List Move × SearchState
  | st, [] => ([], st)
  | st, c :: rest =>
    let st1 := { st with scratch := applySeq base p c }
    let res := evalBest p base st1 rest
    (better p base c res.1, res.2)

/-- Modelled from the spec: `BackgammonAI.get_best_move(game)` (§2,
§4.5): runs the sequence search for the session's current player and
remaining dice on a scratch copy of the Board, returning the chosen
sequence together with the session as the search left it. -/
def get_best_move (s : GameSession) : List Move × GameSession :=
  let st0 : SearchState := ⟨s, s.board⟩
  let res := evalBest s.currentPlayer s.board st0
    (seqs s.board s.currentPlayer s.diceRemaining)
  (res.1, res.2.live)

/-- Contribution of one point to a player's on-track checker total. -/
def contrib (p : Player) (pt : Point) : Nat :=
  if pt.owner = some p then pt.count else 0

/-- Total number of checkers a player owns on the 24-point track. -/
def ownedSum (b : Board) (p : Player) : Nat :=
  (b.points.map (contrib p)).sum

/-- Conservation at one player (§3 Board invariant): points owned plus
bar plus home equals 15. -/
def conservedAt (b : Board) (q : Player) : Prop :=
  ownedSum b q + b.bar q + b.home q = 15

/-- The §3 Board invariant for both players, together with the track
having its 24 points. -/
def Wf (b : Board) : Prop :=
  b.points.length = 24 ∧ ∀ q, conservedAt b q

/-- The reachability invariant: the live board is well-formed and so is
every board stored in the undo stack. -/
def Inv (s : GameSession) : Prop :=
  Wf s.board ∧ ∀ snap ∈ s.history, Wf snap.board

instance (b : Board) (q : Player) : Decidable (conservedAt b q) := by
  unfold conservedAt; infer_instance

/-- Example board: player1 has one checker on the bar, player2 holds
point 3 with two checkers. -/
def exBarBoard : Board :=
  ⟨(List.range 24).map fun i =>
    if i = 3 then ⟨some .player2, 2⟩ else ⟨none, 0⟩, 1, 0, 0, 0⟩

/-- Example board: all 15 of player1's checkers sit on point 18, inside
the home quadrant. -/
def exBearBoard : Board :=
  ⟨(List.range 24).map fun i =>
    if i = 18 then ⟨some .player1, 15⟩ else ⟨none, 0⟩, 0, 0, 0, 0⟩

/-- Example board: player1 has a single checker on point 0. -/
def exSmallBoard : Board :=
  ⟨(List.range 24).map fun i =>
    if i = 0 then ⟨some .player1, 1⟩ else ⟨none, 0⟩, 0, 0, 0, 0⟩

end Backgammon

/-- Example timer: 5 seconds remaining, running, last updated at
wall-clock 0. -/
def exTimer : Elements.TimerElement := ⟨5, 0, false, 0, false⟩

/-- Example slider: range [0, 10], zero step, currently at 5. -/
def exSlider : Elements.SliderElement := ⟨0, 10, 0, 5, "volume"⟩

namespace Backgammon

lemma two_players (p q : Player) : q = p ∨ q = p.opponent := by
  cases p <;> cases q <;> simp [Player.opponent]

lemma ne_opponent (p : Player) : p ≠ p.opponent := by
  cases p <;> decide

lemma getD_set_ne (l : List Point) (i j : Nat) (a : Point) (h : i ≠ j) :
    (l.set i a).getD j default = l.getD j default := by
  induction l generalizing i j with
  | nil => simp
  | cons x xs ih =>
    cases i with
    | zero =>
      cases j with
      | zero => exact absurd rfl h
      | succ jj => simp
    | succ ii =>
      cases j with
      | zero => simp
      | succ jj =>
        simp only [List.set_cons_succ, List.getD_cons_succ]
        exact ih ii jj (by omega)

lemma sum_map_set (f : Point → Nat) (l : List Point) (i : Nat) (a : Point)
    (h : i < l.length) :
    ((l.set i a).map f).sum + f (l.getD i default)
      = (l.map f).sum + f a := by
  induction l generalizing i with
  | nil => simp at h
  | cons x xs ih =>
    cases i with
    | zero => simp; omega
    | succ ii =>
      simp only [List.set_cons_succ, List.getD_cons_succ, List.map_cons,
        List.sum_cons]
      have := ih ii (by simpa using h)
      omega

lemma contrib_srcAfter (p q : Player) (src : Point)
    (hown : src.owner = some p) (hcnt : 0 < src.count) :
    contrib q (srcAfter p src) + (if q = p then 1 else 0) = contrib q src := by
  obtain ⟨o, c⟩ := src
  simp only at hown
  subst hown
  cases p <;> cases q <;>
    simp [contrib, srcAfter] <;> split_ifs <;> simp_all <;> omega

lemma contrib_dstAfter (p q : Player) (dst : Point)
    (hnb : ¬(dst.owner = some p.opponent ∧ 2 ≤ dst.count)) :
    contrib q (dstAfter p dst)
        + (if isCapture p dst ∧ q = p.opponent then 1 else 0)
      = contrib q dst + (if q = p then 1 else 0) := by
  obtain ⟨o, c⟩ := dst
  rcases o with _ | r <;> cases p <;> cases q <;>
    rcases (by omega : c = 0 ∨ c = 1 ∨ 2 ≤ c) with hc | hc | hc <;>
    first
    | (cases r <;> simp_all [contrib, dstAfter, isCapture, Player.opponent])
    | simp_all [contrib, dstAfter, isCapture, Player.opponent]

lemma bar_addBar (b : Board) (r q : Player) :
    (b.addBar r).bar q = b.bar q + (if q = r then 1 else 0) := by
  cases r <;> cases q <;> simp [Board.addBar, Board.bar]

lemma home_addBar (b : Board) (r q : Player) :
    (b.addBar r).home q = b.home q := by
  cases r <;> cases q <;> rfl

lemma points_addBar (b : Board) (r : Player) :
    (b.addBar r).points = b.points := by
  cases r <;> rfl

lemma bar_addHome (b : Board) (r q : Player) :
    (b.addHome r).bar q = b.bar q := by
  cases r <;> cases q <;> rfl

lemma home_addHome (b : Board) (r q : Player) :
    (b.addHome r).home q = b.home q + (if q = r then 1 else 0) := by
  cases r <;> cases q <;> simp [Board.addHome, Board.home]

lemma points_addHome (b : Board) (r : Player) :
    (b.addHome r).points = b.points := by
  cases r <;> rfl

lemma bar_subBar (b : Board) (r q : Player) :
    (b.subBar r).bar q = b.bar q - (if q = r then 1 else 0) := by
  cases r <;> cases q <;> simp [Board.subBar, Board.bar]

lemma home_subBar (b : Board) (r q : Player) :
    (b.subBar r).home q = b.home q := by
  cases r <;> cases q <;> rfl

lemma points_subBar (b : Board) (r : Player) :
    (b.subBar r).points = b.points := by
  cases r <;> rfl

lemma bar_setPoints (b : Board) (P : List Point) (q : Player) :
    (Board.mk P b.bar1 b.bar2 b.home1 b.home2).bar q = b.bar q := by
  cases q <;> rfl

lemma home_setPoints (b : Board) (P : List Point) (q : Player) :
    (Board.mk P b.bar1 b.bar2 b.home1 b.home2).home q = b.home q := by
  cases q <;> rfl

lemma sum_two_set (q : Player) (l : List Point) (f t : Nat) (sA dA : Point)
    (hf : f < l.length) (ht : t < l.length) (hft : f ≠ t) :
    (((l.set f sA).set t dA).map (contrib q)).sum
        + contrib q (l.getD f default) + contrib q (l.getD t default)
      = (l.map (contrib q)).sum + contrib q sA + contrib q dA := by
  have E1 := sum_map_set (contrib q) l f sA hf
  have E2 := sum_map_set (contrib q) (l.set f sA) t dA
    (by simpa [List.length_set] using ht)
  have E3 := getD_set_ne l f t sA hft
  rw [E3] at E2
  omega

lemma apply_checker_move_wf {b b' : Board} {f t : Nat} {p : Player}
    (h : apply_checker_move b f t p = some b') (hw : Wf b) : Wf b' := by
  have hlen := hw.1
  simp only [apply_checker_move] at h
  split_ifs at h with h1 h2 h3 h4
  · -- capture branch: the board is b1.addBar p.opponent
    obtain rfl := Option.some.inj h
    have hf : f < b.points.length := by omega
    have ht : t < b.points.length := by omega
    constructor
    · rw [points_addBar]
      simp [List.length_set, hlen]
    intro q
    have S := sum_two_set q b.points f t
      (srcAfter p (b.points.getD f default))
      (dstAfter p (b.points.getD t default)) hf ht h1.2.2
    have C1 := contrib_srcAfter p q (b.points.getD f default) h2.1 h2.2
    have C2 := contrib_dstAfter p q (b.points.getD t default) h3
    have hcons := hw.2 q
    unfold conservedAt ownedSum at hcons ⊢
    rw [points_addBar, bar_addBar, home_addBar, bar_setPoints, home_setPoints]
    dsimp only
    rcases two_players p q with hq | hq
    · rw [if_neg (fun hh : q = p.opponent => ne_opponent p (hq.symm.trans hh))]
      rw [if_neg (fun hc => ne_opponent p (hq.symm.trans hc.2))] at C2
      rw [if_pos hq] at C1 C2
      omega
    · rw [if_pos hq]
      rw [if_neg (fun hh : q = p => ne_opponent p (hh.symm.trans hq))] at C1 C2
      rw [if_pos ⟨h4, hq⟩] at C2
      omega
  · -- plain branch: the board is b1
    obtain rfl := Option.some.inj h
    have hf : f < b.points.length := by omega
    have ht : t < b.points.length := by omega
    constructor
    · simp [List.length_set, hlen]
    intro q
    have S := sum_two_set q b.points f t
      (srcAfter p (b.points.getD f default))
      (dstAfter p (b.points.getD t default)) hf ht h1.2.2
    have C1 := contrib_srcAfter p q (b.points.getD f default) h2.1 h2.2
    have C2 := contrib_dstAfter p q (b.points.getD t default) h3
    have hcons := hw.2 q
    unfold conservedAt ownedSum at hcons ⊢
    rw [bar_setPoints, home_setPoints]
    dsimp only
    rcases two_players p q with hq | hq
    · rw [if_neg (fun hc => ne_opponent p (hq.symm.trans hc.2))] at C2
      rw [if_pos hq] at C1 C2
      omega
    · rw [if_neg (fun hh : q = p => ne_opponent p (hh.symm.trans hq))] at C1 C2
      rw [if_neg (fun hc => h4 hc.1)] at C2
      omega

lemma apply_bear_off_wf {b b' : Board} {f : Nat} {p : Player}
    (h : apply_bear_off b f p = some b') (hw : Wf b) : Wf b' := by
  have hlen := hw.1
  simp only [apply_bear_off] at h
  split_ifs at h with h1 h2
  obtain rfl := Option.some.inj h
  have hf : f < b.points.length := by omega
  constructor
  · rw [points_addHome]
    simp [List.length_set, hlen]
  intro q
  have S := sum_map_set (contrib q) b.points f
    (srcAfter p (b.points.getD f default)) hf
  have C1 := contrib_srcAfter p q (b.points.getD f default) h2.1 h2.2
  have hcons := hw.2 q
  unfold conservedAt ownedSum at hcons ⊢
  rw [points_addHome, bar_addHome, home_addHome, bar_setPoints, home_setPoints]
  dsimp only
  rcases two_players p q with hq | hq
  · rw [if_pos hq] at C1 ⊢
    omega
  · rw [if_neg (fun hh : q = p => ne_opponent p (hh.symm.trans hq))] at C1 ⊢
    omega

lemma apply_leave_bar_wf {b b' : Board} {e : Nat} {p : Player}
    (h : apply_leave_bar b e p = some b') (hw : Wf b) : Wf b' := by
  have hlen := hw.1
  simp only [apply_leave_bar] at h
  split_ifs at h with h1 h2 h3
  · -- capture branch: the board is b1.addBar p.opponent
    obtain rfl := Option.some.inj h
    have he : e < b.points.length := by omega
    constructor
    · rw [points_addBar]
      simp [List.length_set, hlen]
    intro q
    have S := sum_map_set (contrib q) b.points e
      (dstAfter p (b.points.getD e default)) he
    have C2 := contrib_dstAfter p q (b.points.getD e default) h2
    have hcons := hw.2 q
    have hbar := h1.2
    unfold conservedAt ownedSum at hcons ⊢
    rw [points_addBar, bar_addBar, home_addBar, bar_setPoints, home_setPoints,
      bar_subBar, home_subBar]
    dsimp only
    rcases two_players p q with hq | hq
    · rw [hq] at S C2 hcons ⊢
      rw [if_neg (ne_opponent p), if_pos rfl]
      rw [if_neg (fun hc => ne_opponent p hc.2), if_pos rfl] at C2
      omega
    · rw [hq] at S C2 hcons ⊢
      rw [if_pos rfl, if_neg (fun hh => ne_opponent p hh.symm)]
      rw [if_pos ⟨h3, rfl⟩, if_neg (fun hh => ne_opponent p hh.symm)] at C2
      omega
  · -- plain branch: the board is b1
    obtain rfl := Option.some.inj h
    have he : e < b.points.length := by omega
    constructor
    · simp [List.length_set, hlen]
    intro q
    have S := sum_map_set (contrib q) b.points e
      (dstAfter p (b.points.getD e default)) he
    have C2 := contrib_dstAfter p q (b.points.getD e default) h2
    have hcons := hw.2 q
    have hbar := h1.2
    unfold conservedAt ownedSum at hcons ⊢
    rw [bar_setPoints, home_setPoints, bar_subBar, home_subBar]
    dsimp only
    rcases two_players p q with hq | hq
    · rw [hq] at S C2 hcons ⊢
      rw [if_pos rfl]
      rw [if_neg (fun hc => ne_opponent p hc.2), if_pos rfl] at C2
      omega
    · rw [hq] at S C2 hcons ⊢
      rw [if_neg (fun hh => ne_opponent p hh.symm)]
      rw [if_neg (fun hc => h3 hc.1),
        if_neg (fun hh => ne_opponent p hh.symm)] at C2
      omega

lemma applyMove_wf {b b' : Board} {p : Player} {m : Move}
    (h : applyMove b p m = some b') (hw : Wf b) : Wf b' := by
  unfold applyMove at h
  rcases m with ⟨k, st, en⟩
  cases k with
  | normal_move => exact apply_checker_move_wf h hw
  | bear_off => exact apply_bear_off_wf h hw
  | leave_bar => exact apply_leave_bar_wf h hw

lemma inv_init (d1 d2 : Nat) : Inv (initSession d1 d2) := by
  refine ⟨⟨?_, fun q => ?_⟩, ?_⟩
  · show initialBoard.points.length = 24
    decide
  · show conservedAt initialBoard q
    cases q <;> decide
  · intro snap hs
    simp [initSession] at hs

lemma execute_inv {s s' : GameSession} {m : Move}
    (h : execute s m = (s', none)) (hi : Inv s) : Inv s' := by
  unfold execute at h
  split_ifs at h with hgo
  · simp at h
  rcases hfind : s.diceRemaining.find?
      (fun d => decide (m ∈ legal_moves s.board s.currentPlayer d)) with _ | d
  · rw [hfind] at h
    simp at h
  rw [hfind] at h
  rcases happ : applyMove s.board s.currentPlayer m with _ | b'
  · rw [happ] at h
    simp at h
  rw [happ] at h
  simp only [Prod.mk.injEq] at h
  obtain ⟨h1, -⟩ := h
  subst h1
  refine ⟨applyMove_wf happ hi.1, ?_⟩
  intro snap hs
  rcases List.mem_cons.mp hs with rfl | hs'
  · exact hi.1
  · exact hi.2 snap hs'

lemma undo_inv {s s' : GameSession} (h : undo s = (s', none)) (hi : Inv s) :
    Inv s' := by
  unfold undo at h
  rcases hs : s.history with _ | ⟨snap, rest⟩
  · rw [hs] at h
    simp at h
  rw [hs] at h
  simp only [Prod.mk.injEq] at h
  obtain ⟨h1, -⟩ := h
  subst h1
  refine ⟨hi.2 snap (by rw [hs]; exact List.mem_cons_self _ _), ?_⟩
  intro sn hsn
  exact hi.2 sn (by rw [hs]; exact List.mem_cons_of_mem _ hsn)

lemma switch_inv {s : GameSession} (d1 d2 : Nat) (hi : Inv s) :
    Inv (switch_turn s d1 d2) := by
  unfold switch_turn
  split_ifs with hc
  · refine ⟨hi.1, ?_⟩
    intro sn hsn
    simp at hsn
  · exact hi

lemma reachable_inv {s : GameSession} (h : Reachable s) : Inv s := by
  induction h with
  | init d1 d2 => exact inv_init d1 d2
  | exec _ he ih => exact execute_inv he ih
  | undoStep _ hu ih => exact undo_inv hu ih
  | switch d1 d2 _ ih => exact switch_inv d1 d2 ih

lemma legalSeq_mem_seqs {b : Board} {p : Player} {dice : List Nat}
    {sq : List Move} (h : LegalSeq b p dice sq) : sq ∈ seqs b p dice := by
  induction h with
  | nil b p dice =>
    rw [seqs]
    exact List.mem_cons_self _ _
  | cons hd hm _ ih =>
    rw [seqs]
    refine List.mem_cons.mpr (Or.inr (List.mem_flatMap.mpr
      ⟨⟨_, List.mem_dedup.mpr hd⟩, List.mem_attach _ _,
        List.mem_flatMap.mpr ⟨_, hm, List.mem_map.mpr ⟨_, ih, rfl⟩⟩⟩))

lemma length_better_left (p : Player) (base : Board) (s t : List Move) :
    s.length ≤ (better p base s t).length := by
  unfold better
  split_ifs <;> omega

lemma length_better_right (p : Player) (base : Board) (s t : List Move) :
    t.length ≤ (better p base s t).length := by
  unfold better
  split_ifs <;> omega

lemma length_le_foldr_better (p : Player) (base : Board) :
    ∀ {l : List (List Move)} {sq : List Move}, sq ∈ l →
      sq.length ≤ (l.foldr (better p base) []).length := by
  intro l
  induction l with
  | nil =>
    intro sq hs
    simp at hs
  | cons c rest ih =>
    intro sq hs
    rcases List.mem_cons.mp hs with rfl | hs'
    · exact length_better_left p base sq _
    · exact le_trans (ih hs') (length_better_right p base c _)

lemma evalBest_live (p : Player) (base : Board) (l : List (List Move)) :
    ∀ st : SearchState, ((evalBest p base st l).2).live = st.live := by
  induction l with
  | nil =>
    intro st
    rfl
  | cons c rest ih =>
    intro st
    simp only [evalBest]
    exact ih _

lemma evalBest_fst (p : Player) (base : Board) (l : List (List Move)) :
    ∀ st : SearchState, (evalBest p base st l).1 = l.foldr (better p base) [] := by
  induction l with
  | nil =>
    intro st
    rfl
  | cons c rest ih =>
    intro st
    simp only [evalBest, List.foldr_cons]
    rw [ih]

lemma legal_moves_bear_off_gate {b : Board} {p : Player} {d : Nat} {m : Move}
    (hm : m ∈ legal_moves b p d) (hk : m.move_type = .bear_off) :
    checkers_in_home_quadrant b p = 15 := by
  unfold legal_moves at hm
  split_ifs at hm with hbar hblk
  · dsimp only at hm
    split_ifs at hm with hb2
    · simp at hm
    · simp only [List.mem_singleton] at hm
      rw [hm] at hk
      exact MoveType.noConfusion hk
  · exact hblk
  · rcases List.mem_filterMap.mp hm with ⟨i, -, hsome⟩
    dsimp only at hsome
    split_ifs at hsome
    all_goals
      first
      | exact Option.noConfusion hsome
      | (rw [← Option.some.inj hsome] at hk
         exact MoveType.noConfusion hk)

lemma bear_off_mem_legal_moves {b : Board} {p : Player} {i d : Nat}
    (hbar : b.bar p = 0) (hi : i < 24)
    (hown : (b.points.getD i default).owner = some p)
    (hcnt : 0 < (b.points.getD i default).count)
    (hoff : offBoard p i d = true)
    (hgate : checkers_in_home_quadrant b p = 15) :
    (⟨.bear_off, i, 24⟩ : Move) ∈ legal_moves b p d := by
  unfold legal_moves
  rw [if_neg (by omega : ¬ 0 < b.bar p)]
  refine List.mem_filterMap.mpr ⟨i, List.mem_range.mpr hi, ?_⟩
  dsimp only
  rw [if_pos ⟨hown, hcnt⟩, if_pos hoff, if_pos hgate]

/-- Claim C1: checker conservation.  For every player and every state of
the Board reachable through the engine's operations (move execution,
undo, turn switch), the number of checkers on points owned by that
player plus that player's bar count plus that player's home count
equals 15. -/
theorem checker_conservation {s : GameSession} (h : Reachable s) (p : Player) :
    ownedSum s.board p + s.board.bar p + s.board.home p = 15 :=
  (reachable_inv h).1.2 p

/-- Witness for C1: the invariant evaluated on the freshly created
session. -/
theorem checker_conservation_witness :
    ownedSum (initSession 3 4).board .player1
        + (initSession 3 4).board.bar .player1
        + (initSession 3 4).board.home .player1 = 15 :=
  checker_conservation (Reachable.init 3 4) .player1

/-- Claim C2: undo round-trip.  Executing any legal move and then
calling undo restores the Board, the remaining dice values, the current
player — indeed the whole session including the undo stack — exactly to
the pre-move state; undo fails with EmptyHistory when the per-turn
snapshot stack is empty, so it never crosses a turn boundary (the stack
is cleared by switch_turn). -/
theorem undo_round_trip (s : GameSession) :
    (∀ (m : Move) (s' : GameSession),
      execute s m = (s', none) → undo s' = (s, none))
    ∧ (s.history = [] → undo s = (s, some .emptyHistory)) := by
  constructor
  · intro m s' h
    unfold execute at h
    split_ifs at h with hgo
    · simp at h
    rcases hfind : s.diceRemaining.find?
        (fun d => decide (m ∈ legal_moves s.board s.currentPlayer d)) with _ | d
    · rw [hfind] at h
      simp at h
    rw [hfind] at h
    rcases happ : applyMove s.board s.currentPlayer m with _ | b'
    · rw [happ] at h
      simp at h
    rw [happ] at h
    simp only [Prod.mk.injEq] at h
    obtain ⟨h1, -⟩ := h
    subst h1
    rcases s with ⟨bb, dd, pp, hh⟩
    rfl
  · intro h
    rcases s with ⟨bb, dd, pp, hh⟩
    dsimp only at h
    subst h
    rfl

/-- Witness for C2: executing the opening move 0→1 on a fresh session
and undoing it returns exactly the fresh session. -/
theorem undo_round_trip_witness :
    undo ((execute (initSession 1 2) ⟨.normal_move, 0, 1⟩).1)
      = (initSession 1 2, none) := by
  have h2 : (execute (initSession 1 2) ⟨.normal_move, 0, 1⟩).2 = none := by
    decide
  exact (undo_round_trip (initSession 1 2)).1 ⟨.normal_move, 0, 1⟩ _
    (by rw [← h2])

/-- Claim C3: bear-off gating with atomicity.  For a live (non-terminal)
session whose current player has an empty bar, a checker on point `i`,
and a remaining die carrying that checker off the board, the bear-off
move succeeds if and only if `checkers_in_home_quadrant` counts all 15
checkers; when the gate fails the move fails with IllegalMove and the
session — in particular the Board — is returned completely unchanged. -/
theorem bear_off_gating (s : GameSession) (i d : Nat)
    (hgo : s.is_game_over = false)
    (hbar : s.board.bar s.currentPlayer = 0)
    (hi : i < 24)
    (hown : (s.board.points.getD i default).owner = some s.currentPlayer)
    (hcnt : 0 < (s.board.points.getD i default).count)
    (hd : d ∈ s.diceRemaining)
    (hoff : offBoard s.currentPlayer i d = true) :
    ((execute s ⟨.bear_off, i, 24⟩).2 = none
      ↔ checkers_in_home_quadrant s.board s.currentPlayer = 15)
    ∧ (checkers_in_home_quadrant s.board s.currentPlayer ≠ 15 →
        execute s ⟨.bear_off, i, 24⟩ = (s, some .illegalMove)) := by
  by_cases hgate : checkers_in_home_quadrant s.board s.currentPlayer = 15
  · have happ : applyMove s.board s.currentPlayer ⟨.bear_off, i, 24⟩
        = some (Board.addHome
            { s.board with
              points := s.board.points.set i
                (srcAfter s.currentPlayer (s.board.points.getD i default)) }
            s.currentPlayer) := by
      unfold applyMove apply_bear_off
      dsimp only
      rw [if_pos hi, if_pos ⟨hown, hcnt⟩]
    have hsucc : (execute s ⟨.bear_off, i, 24⟩).2 = none := by
      unfold execute
      rw [if_neg (by simp [hgo])]
      rcases hfind : s.diceRemaining.find?
          (fun d => decide ((⟨.bear_off, i, 24⟩ : Move)
            ∈ legal_moves s.board s.currentPlayer d)) with _ | d'
      · exact absurd
          (bear_off_mem_legal_moves hbar hi hown hcnt hoff hgate)
          (by simpa using List.find?_eq_none.mp hfind d hd)
      · rw [happ]
    exact ⟨⟨fun _ => hgate, fun _ => hsucc⟩, fun hng => absurd hgate hng⟩
  · have hfind : s.diceRemaining.find?
        (fun d => decide ((⟨.bear_off, i, 24⟩ : Move)
          ∈ legal_moves s.board s.currentPlayer d)) = none :=
      List.find?_eq_none.mpr fun x _ => by
        simpa using fun hmem => hgate (legal_moves_bear_off_gate hmem rfl)
    have hfail : execute s ⟨.bear_off, i, 24⟩ = (s, some .illegalMove) := by
      unfold execute
      rw [if_neg (by simp [hgo]), hfind]
    refine ⟨?_, fun _ => hfail⟩
    rw [hfail]
    simp [hgate]

/-- Witness for C3: with all 15 of player1's checkers on point 18 and a
6 remaining, the bear-off from 18 succeeds. -/
theorem bear_off_gating_witness :
    (execute ⟨exBearBoard, [6], .player1, []⟩ ⟨.bear_off, 18, 24⟩).2 = none :=
  (bear_off_gating ⟨exBearBoard, [6], .player1, []⟩ 18 6 (by decide) (by decide)
    (by decide) (by decide) (by decide) (by decide) (by decide)).1.mpr
    (by decide)

/-- Claim C4: bar priority.  For every board, player and die value, if
the player's bar count is positive then every move in the legal-move
set is a `leave_bar` move — in particular no `normal_move` or
`bear_off` is in the set. -/
theorem bar_priority (b : Board) (p : Player) (d : Nat)
    (hbar : 0 < b.bar p) :
    ∀ m ∈ legal_moves b p d, m.move_type = .leave_bar := by
  intro m hm
  unfold legal_moves at hm
  rw [if_pos hbar] at hm
  dsimp only at hm
  split_ifs at hm with hb
  · simp at hm
  · simp only [List.mem_singleton] at hm
    rw [hm]

/-- Witness for C4: player1 with a checker on the bar gets exactly the
entry move for die 2, and it is a `leave_bar` move. -/
theorem bar_priority_witness :
    (Move.mk .leave_bar 24 2).move_type = .leave_bar :=
  bar_priority exBarBoard .player1 2 (by decide) _ (by decide)

/-- Claim C5: AI sequence maximality.  The sequence returned by the
search is never strictly shorter than any legal move sequence
achievable under some ordering of the available die values, and
`get_best_move` returns exactly `best_sequence` evaluated on the
session's board, player and remaining dice. -/
theorem ai_sequence_maximality {b : Board} {p : Player} {dice : List Nat}
    {sq : List Move} (h : LegalSeq b p dice sq) :
    sq.length ≤ (best_sequence b p dice).length
    ∧ (get_best_move ⟨b, dice, p, []⟩).1 = best_sequence b p dice := by
  constructor
  · exact length_le_foldr_better p b (legalSeq_mem_seqs h)
  · unfold get_best_move best_sequence
    exact evalBest_fst p b _ _

/-- Witness for C5: on a board with a single checker on point 0 and one
die of value 1, the one-move sequence 0→1 is legal, so the search
returns a sequence of length at least 1. -/
theorem ai_sequence_maximality_witness :
    1 ≤ (best_sequence exSmallBoard .player1 [1]).length
    ∧ (get_best_move ⟨exSmallBoard, [1], .player1, []⟩).1
        = best_sequence exSmallBoard .player1 [1] := by
  have h : LegalSeq exSmallBoard .player1 [1] [⟨.normal_move, 0, 1⟩] :=
    LegalSeq.cons (d := 1) (by decide) (by decide) (.nil _ _ _)
  exact ⟨(ai_sequence_maximality h).1, (ai_sequence_maximality h).2⟩

/-- Claim C6: the AI is read-only on the live session.  Running the
move-sequence search returns the live session — its Board, remaining
dice, current player and undo history — exactly as it was; all move
execution happens on the scratch component of the search state. -/
theorem ai_read_only (s : GameSession) : (get_best_move s).2 = s := by
  unfold get_best_move
  exact evalBest_live s.currentPlayer s.board _ _

/-- Claim C7: doubles expansion.  A doubles roll yields the die value
exactly four times, a non-doubles roll exactly the two values; both the
fresh session and a completed turn switch hand downstream components
the already-expanded list. -/
theorem doubles_expansion (d1 d2 : Nat) (s : GameSession) :
    (d1 = d2 → expand_roll d1 d2 = List.replicate 4 d1
      ∧ (expand_roll d1 d2).count d1 = 4)
    ∧ (d1 ≠ d2 → expand_roll d1 d2 = [d1, d2])
    ∧ (initSession d1 d2).diceRemaining = expand_roll d1 d2
    ∧ (switch_turn s d1 d2 = s
        ∨ (switch_turn s d1 d2).diceRemaining = expand_roll d1 d2) := by
  refine ⟨fun h => ?_, fun h => ?_, rfl, ?_⟩
  · subst h
    simp [expand_roll]
  · simp [expand_roll, h]
  · unfold switch_turn
    split_ifs
    · exact Or.inr rfl
    · exact Or.inl rfl

/-- Witness for C7: the roll (4,4) expands to four usable values of 4. -/
theorem doubles_expansion_witness :
    expand_roll 4 4 = List.replicate 4 4 ∧ (expand_roll 4 4).count 4 = 4 :=
  (doubles_expansion 4 4 (initSession 1 2)).1 rfl

end Backgammon

namespace Elements

/-- Claim C8: `ButtonElement.click` returns True, plays the configured
sound if one is set, and invokes the `on_click` callback exactly once,
precisely when some event in the list is a left mouse-button-down, the
button is not disabled, and the mouse position lies inside the button's
rect; in every other case it returns False, invokes no callback and
plays no sound. -/
theorem button_click_spec (b : ButtonElement) (events : List Event)
    (pos : Int × Int) :
    b.click events pos =
      if (∃ e ∈ events, e.etype = MOUSEBUTTONDOWN ∧ e.button = 1)
          ∧ b.disabled = false
          ∧ b.rect.left ≤ pos.1 ∧ pos.1 < b.rect.left + b.rect.width
          ∧ b.rect.top ≤ pos.2 ∧ pos.2 < b.rect.top + b.rect.height
      then ⟨true, if b.hasSound then 1 else 0, 1⟩
      else ⟨false, 0, 0⟩ := by
  have hA : (events.any fun e =>
        e.etype == MOUSEBUTTONDOWN && e.button == 1) = true
      ↔ (∃ e ∈ events, e.etype = MOUSEBUTTONDOWN ∧ e.button = 1) := by
    simp [List.any_eq_true]
  have hB : b.is_input_recieved pos = true
      ↔ (b.disabled = false
          ∧ b.rect.left ≤ pos.1 ∧ pos.1 < b.rect.left + b.rect.width
          ∧ b.rect.top ≤ pos.2 ∧ pos.2 < b.rect.top + b.rect.height) := by
    simp [ButtonElement.is_input_recieved, Rect.collidepoint,
      Bool.and_eq_true, decide_eq_true_eq, Bool.not_eq_true', and_assoc]
  by_cases hP : (∃ e ∈ events, e.etype = MOUSEBUTTONDOWN ∧ e.button = 1)
      ∧ b.disabled = false
      ∧ b.rect.left ≤ pos.1 ∧ pos.1 < b.rect.left + b.rect.width
      ∧ b.rect.top ≤ pos.2 ∧ pos.2 < b.rect.top + b.rect.height
  · rw [if_pos hP]
    unfold ButtonElement.click
    rw [if_neg (by simp [hA.mpr hP.1, hB.mpr hP.2])]
  · rw [if_neg hP]
    unfold ButtonElement.click
    have hg : ((!events.any fun e => e.etype == MOUSEBUTTONDOWN
          && e.button == 1) || !b.is_input_recieved pos) = true := by
      cases hany : (events.any fun e =>
          e.etype == MOUSEBUTTONDOWN && e.button == 1) with
      | false => simp [hany]
      | true =>
        cases hinp : b.is_input_recieved pos with
        | false => simp [hinp]
        | true => exact absurd ⟨hA.mp hany, hB.mp hinp⟩ hP
    rw [if_pos hg]

/-- Claim C9: slider clamping.  For a slider with `min ≤ max` and zero
step, assigning a value stores exactly the clamped value — `max v min`
when `v < min`, else `min v max` — which therefore lies in
`[min, max]`, and the `on_value_change` callback is invoked exactly
once with that clamped value and the slider's id. -/
theorem slider_value_clamp (s : SliderElement) (v : ℚ)
    (hrange : s.min ≤ s.max) (hstep : s.step = 0) :
    (s.setValue v).1.value
        = (if v < s.min then Max.max v s.min else Min.min v s.max)
    ∧ s.min ≤ (s.setValue v).1.value
    ∧ (s.setValue v).1.value ≤ s.max
    ∧ (s.setValue v).2
        = [((if v < s.min then Max.max v s.min else Min.min v s.max), s.id)] := by
  unfold SliderElement.setValue
  simp only [hstep, ne_eq, not_true_eq_false, if_false]
  refine ⟨trivial, ?_, ?_, trivial⟩
  · split_ifs with h
    · exact le_max_right v s.min
    · exact le_min (not_lt.mp h) hrange
  · split_ifs with h
    · exact max_le (h.le.trans hrange) hrange
    · exact min_le_right v s.max

/-- Witness for C9: assigning 42 to a slider over [0, 10] stores a
value inside the range. -/
theorem slider_value_clamp_witness :
    exSlider.min ≤ (exSlider.setValue 42).1.value
    ∧ (exSlider.setValue 42).1.value ≤ exSlider.max := by
  have h := slider_value_clamp exSlider 42 (by norm_num [exSlider]) rfl
  exact ⟨h.2.1, h.2.2.1⟩

/-- Counterexample for C10 as stated: when the elapsed time equals the
remaining time exactly, the timer reaches 0 but the source's strict
`timer < 0` test fails, so the timer is not disabled and `on_done` is
not invoked, contradicting the claim's "elapsed ≥ remaining" trigger. -/
theorem timer_expiry_counterexample :
    (5 : ℚ) - exTimer.current_time ≥ exTimer.time
    ∧ exTimer.disabled = false
    ∧ (exTimer.update 5).state.time = 0
    ∧ (exTimer.update 5).state.disabled = false
    ∧ (exTimer.update 5).onDoneCalls = 0 := by
  refine ⟨by norm_num [exTimer], rfl, ?_, ?_, ?_⟩ <;>
    norm_num [exTimer, TimerElement.update]

/-- Claim C10 (amended): timer expiry.  If `update` runs while the
timer is not disabled and the elapsed wall-clock time strictly exceeds
the remaining time, then afterwards the timer value is exactly 0 (never
negative), the timer is disabled, and `on_done` has been invoked
exactly once; if the timer is disabled, `update` changes nothing and
invokes no callback. -/
theorem timer_update_spec (t : TimerElement) (now : ℚ) :
    (t.disabled = false → t.time < now - t.current_time →
      (t.update now).state.time = 0
      ∧ (t.update now).state.disabled = true
      ∧ (t.update now).onDoneCalls = 1)
    ∧ (t.disabled = true → t.update now = ⟨t, 0, 0⟩) := by
  constructor
  · intro hd hlt
    have hneg : t.time - (now - t.current_time) < 0 := by linarith
    unfold TimerElement.update
    rw [if_neg (by simp [hd])]
    dsimp only
    rw [if_pos hneg]
    exact ⟨rfl, rfl, rfl⟩
  · intro hd
    unfold TimerElement.update
    rw [if_pos hd]

/-- Witness for C10: a running 5-second timer updated 10 seconds later
expires: value 0, disabled, `on_done` called once. -/
theorem timer_update_spec_witness :
    (exTimer.update 10).state.time = 0
    ∧ (exTimer.update 10).state.disabled = true
    ∧ (exTimer.update 10).onDoneCalls = 1 :=
  (timer_update_spec exTimer 10).1 rfl (by norm_num [exTimer])

end Elements
